/-
  Verification of the isolate client (Go) configuration-resolution and
  archive-pipeline code against its natural-language specification.

  The Go sources are shallowly embedded: pure functions become Lean
  functions, Go maps with string keys become association lists or
  structures with string fields (absent key = ""), fallible code returns
  Except, and panics (Go `assert`) are modelled as errors.  The embedding
  targets the POSIX (linux) build: `common.IsWindows() = false`,
  `common.IsWin32() = false`, `os.PathSeparator = '/'`.
-/

import Mathlib

namespace IsolateClient

instance {ε α : Type} [DecidableEq ε] [DecidableEq α] : DecidableEq (Except ε α)
  | .error a, .error b => decidable_of_iff (a = b) (by simp)
  | .error _, .ok _ => isFalse (by simp)
  | .ok _, .error _ => isFalse (by simp)
  | .ok a, .ok b => decidable_of_iff (a = b) (by simp)

/-! ## Go string and path helpers -/

/-- Model of `strings.HasPrefix(s, pre)` from the Go standard library. -/
def goHasPre (s pre : String) : Bool :=
  pre.data.isPrefixOf s.data

/-- Splits a character list on a separator, keeping empty components
(the behaviour of walking byte ranges between separators in Go). -/
def splitCharAux (sep : Char) : List Char → List Char → List (List Char)
  | [], acc => [acc.reverse]
  | c :: cs, acc =>
    if c = sep then acc.reverse :: splitCharAux sep cs []
    else splitCharAux sep cs (c :: acc)

/-- Joins path components with the posix separator. -/
def joinSlash : List String → String
  | [] => ""
  | [s] => s
  | s :: rest => s ++ "/" ++ joinSlash rest

/-- One step of the `path.Clean` component stack (Go `path/filepath`,
unix rules).  The stack is kept reversed (most recent component first). -/
def cleanStep (rooted : Bool) (st : List String) (c : String) : List String :=
  if c = "" ∨ c = "." then st
  else if c = ".." then
    match st with
    | top :: rest => if top = ".." then c :: top :: rest else rest
    | [] => if rooted then [] else [".."]
  else c :: st

/-- Model of `filepath.Clean` for unix paths (Go `path/filepath`). -/
def goClean (p : String) : String :=
  if p = "" then "." else
  let cs := p.data
  let rooted := cs.headD ' ' = '/'
  let comps := (splitCharAux '/' cs []).map fun l => String.mk l
  let stack := (comps.foldl (cleanStep rooted) []).reverse
  if rooted then "/" ++ joinSlash stack
  else if stack = [] then "." else joinSlash stack

/-- Path components of a cleaned path whose leading root slash (if any)
has already been removed by the caller. -/
def relComps (s : String) : List String :=
  if s = "" then [] else (splitCharAux '/' s.data []).map fun l => String.mk l

/-- Strips the common leading components of two component lists
(the element-walk loop of Go `filepath.Rel`). -/
def dropCommon : List String → List String → List String × List String
  | a :: as, b :: bs => if a = b then dropCommon as bs else (a :: as, b :: bs)
  | as, bs => (as, bs)

/-- Model of `filepath.Rel(basepath, targpath)` for unix paths (no volume names). -/
def goRel (basepath targpath : String) : Except String String :=
  let base := goClean basepath
  let targ := goClean targpath
  if targ = base then .ok "." else
  let base := if base = "." then "" else base
  let baseSlashed := base.data.headD ' ' = '/'
  let targSlashed := targ.data.headD ' ' = '/'
  if baseSlashed ≠ targSlashed then
    .error ("Rel: cannot make " ++ targpath ++ " relative to " ++ basepath)
  else
    let bs := relComps (if baseSlashed then String.mk (base.data.drop 1) else base)
    let ts := relComps (if targSlashed then String.mk (targ.data.drop 1) else targ)
    let rem := dropCommon bs ts
    if rem.1.headD "" = ".." then
      .error ("Rel: cannot make " ++ targpath ++ " relative to " ++ basepath)
    else if rem.1 = [] then .ok (joinSlash rem.2)
    else .ok (joinSlash (List.replicate rem.1.length ".." ++ rem.2))

/-- Model of `common.PosixpathJoin` restricted to two arguments, as called from
`ConfigSettings.Union`: `filepath.Join` (join non-empty parts, then
`Clean`); the trailing `strings.Replace(..., 0)` replaces zero
occurrences and is a no-op. -/
def posixpathJoin2 (a b : String) : String :=
  if a = "" ∧ b = "" then ""
  else if a = "" then goClean b
  else if b = "" then goClean a
  else goClean (a ++ "/" ++ b)

/-- Model of `filepath.IsAbs` for unix. -/
def goIsAbs (p : String) : Bool :=
  p.data.headD ' ' = '/'

/-! ## Go string ordering and `sort.Strings`

Go compares strings byte-wise; on valid UTF-8 the byte order agrees with
the code-point order used below.  `sort.Strings` is modelled by
`List.insertionSort goStrLe`: Go's sort is unstable, but for string
slices any sorted rearrangement is the same list, so the result
agrees. -/

/-- Code-point comparison of characters (equals Go's byte comparison on
valid UTF-8). -/
def charLtB (a b : Char) : Bool :=
  decide (a.toNat < b.toNat)

/-- Lexicographic strict order on character lists (Go `a < b` on
strings). -/
def listCharLtB : List Char → List Char → Bool
  | _, [] => false
  | [], _ :: _ => true
  | a :: as, b :: bs =>
    if charLtB a b then true else if charLtB b a then false else listCharLtB as bs

/-- Go's `a < b` on strings. -/
def strLtB (a b : String) : Bool :=
  listCharLtB a.data b.data

/-- Go's `a <= b` on strings. -/
def strLeB (a b : String) : Bool :=
  ! strLtB b a

/-- The (propositional) Go string order used as a sorting relation. -/
def goStrLe (a b : String) : Prop :=
  strLeB a b = true

instance : DecidableRel goStrLe :=
  fun a b => inferInstanceAs (Decidable (strLeB a b = true))

/-- Sorted string slice, the result of `sort.Strings`. -/
def goSortStrings (l : List String) : List String :=
  List.insertionSort goStrLe l

/-- Model of `ParsedIsolate` from src/isolate/storage.go (field order as in Go). -/
structure ParsedIsolate where
  Command : List String
  Files : List String
  ReadOnly : Int
deriving DecidableEq

/-- Model of `ParsedIsolate.IsEmpty`. -/
def ParsedIsolate.IsEmpty (p : ParsedIsolate) : Bool :=
  p.Command.isEmpty && p.Files.isEmpty

/-- Model of `ConfigSettings` from src/isolate/storage.go. `IsolateDir = ""` is
the empty-object marker. -/
structure ConfigSettings where
  Files : List String
  Command : List String
  ReadOnly : Int
  IsolateDir : String
deriving DecidableEq

/-- Model of `ConfigSettings.Init`.  The Go `assert` panics are modelled as
errors. -/
def ConfigSettings.Init (values : ParsedIsolate) (isolateDir : String) :
    Except String ConfigSettings :=
  if isolateDir = "" then
    if values.IsEmpty then
      .ok ⟨goSortStrings values.Files, values.Command, values.ReadOnly, isolateDir⟩
    else .error "assert: values must be empty when isolateDir is unset"
  else if goIsAbs isolateDir then
    .ok ⟨goSortStrings values.Files, values.Command, values.ReadOnly, isolateDir⟩
  else .error "assert: isolateDir must be absolute"

/-- Model of `ConfigSettings.Union` from src/isolate/storage.go, on the modelled
POSIX platform (`common.IsWin32() = false`, so the Windows-only assert
comparing lower-cased IsolateDirs is skipped; `os.PathSeparator = '/'`,
so `strings.Replace(rebasePath, sep, "/", 0)` is a no-op). -/
def ConfigSettings.Union (lhs rhs : ConfigSettings) : Except String ConfigSettings :=
  if lhs.IsolateDir = "" then .ok rhs
  else if rhs.IsolateDir = "" then .ok lhs
  else
    let useRhs :=
      if lhs.Command ≠ [] then false
      else if rhs.Command ≠ [] then true
      else lhs.Files = []
    let command := if lhs.Command ≠ [] then lhs.Command else rhs.Command
    let readOnly := if lhs.ReadOnly ≠ -1 then lhs.ReadOnly else rhs.ReadOnly
    let lRelCwd := if useRhs then rhs.IsolateDir else lhs.IsolateDir
    let rRelCwd := if useRhs then lhs.IsolateDir else rhs.IsolateDir
    let lFiles := if useRhs then rhs.Files else lhs.Files
    let rFiles := if useRhs then lhs.Files else rhs.Files
    match goRel rRelCwd lRelCwd with
    | .error e => .error e
    | .ok rebasePath =>
      let files := lFiles ++ rFiles.map fun f =>
        if ¬(goHasPre f "<(" ∨ rebasePath = ".") then posixpathJoin2 rebasePath f
        else f
      ConfigSettings.Init ⟨command, goSortStrings files, readOnly⟩ lRelCwd

/-! ## ConfigName and Configs (src/isolate/storage.go) -/

/-- Model of `ConfigValueOfKey`: one slot of a ConfigName, either bound to a
value or unbound (wildcard). -/
structure ConfigValueOfKey where
  Value : String
  IsBound : Bool
deriving DecidableEq

/-- Model of `ConfigName`: one slot per configuration variable. -/
abbrev ConfigName := List ConfigValueOfKey

/-- Model of `compareConfigNames`: bound sorts before unbound; two bound slots
compare by value.  The Go function asserts equal lengths and walks the
indices; the embedding walks the common prefix (extra elements of a
longer argument are ignored, a case the Go code would panic on). -/
def compareConfigNames : ConfigName → ConfigName → Int
  | l :: ls, r :: rs =>
    if l.IsBound && r.IsBound then
      if strLtB l.Value r.Value then -1
      else if strLtB r.Value l.Value then 1
      else compareConfigNames ls rs
    else if l.IsBound then -1
    else if r.IsBound then 1
    else compareConfigNames ls rs
  | _, _ => 0

/-- Model of `ConfigPair`: one (ConfigName, ConfigSettings) entry of `ByConfig`. -/
structure ConfigPair where
  Key : ConfigName
  Value : ConfigSettings
deriving DecidableEq

/-- The ordering used by `sort.Sort(ConfigPairs(...))`
(`Less i j := compareConfigNames ... < 0`).  Go's sort is modelled by the
stable `List.insertionSort`, which agrees with Go's algorithm on the
small slices arising in the concrete statements below. -/
def pairLe (p q : ConfigPair) : Prop :=
  compareConfigNames p.Key q.Key ≤ 0

instance : DecidableRel pairLe :=
  fun p q => inferInstanceAs (Decidable (compareConfigNames p.Key q.Key ≤ 0))

/-- Model of `Configs`: a processed .isolate file (`FileComment` is a byte slice
in Go, modelled as a string). -/
structure Configs where
  FileComment : String
  ConfigVariables : List String
  ByConfig : List ConfigPair
deriving DecidableEq

/-- The per-entry match test inside `Configs.GetConfig`: every bound
slot of the entry key must equal the corresponding query slot.  Go
indexes `pair.Key[i]` for each index `i` of the query and would panic on
a shorter key; the embedding stops at the shorter list. -/
def configMatches : ConfigName → ConfigName → Bool
  | [], _ => true
  | _ :: _, [] => true
  | q :: qs, k :: ks => !(k.IsBound && k ≠ q) && configMatches qs ks

/-- The accumulation loop of `Configs.GetConfig`. -/
def getConfigLoop (configName : ConfigName) :
    ConfigSettings → List ConfigPair → Except String ConfigSettings
  | out, [] => .ok out
  | out, pair :: rest =>
    if configMatches configName pair.Key then
      match out.Union pair.Value with
      | .error e => .error e
      | .ok out2 => getConfigLoop configName out2 rest
    else getConfigLoop configName out rest

/-- Model of `Configs.GetConfig`: sorts `ByConfig` by `compareConfigNames`, then
unions every matching entry into an accumulator starting from the Go
zero value `ConfigSettings{}`. -/
def Configs.GetConfig (c : Configs) (configName : ConfigName) :
    Except String ConfigSettings :=
  getConfigLoop configName ⟨[], [], 0, ""⟩ (List.insertionSort pairLe c.ByConfig)

/-- The adjacent-deduplication scan of `getConfigVarsUnion` (the `for
cur := range varSet[1:]` loop with its running `last`). -/
def dedupLoop (last : String) : List String → List String
  | [] => []
  | c :: cs => if c = last then dedupLoop last cs else c :: dedupLoop c cs

/-- Model of `unique := varSet[:1]` followed by the scan. -/
def dedupAdj : List String → List String
  | [] => []
  | x :: xs => x :: dedupLoop x xs

/-- List-level body of `Configs.getConfigVarsUnion` (the Go local
`varSet` is the appended list `l1 ++ l2`). -/
def varsUnionL (l1 l2 : List String) : List String :=
  if l1 ++ l2 = [] then l1 ++ l2
  else dedupAdj (goSortStrings (l1 ++ l2))

/-- Model of `Configs.getConfigVarsUnion`: sorted, deduplicated union of the two
ConfigVariables name lists. -/
def Configs.getConfigVarsUnion (lhs rhs : Configs) : List String :=
  varsUnionL lhs.ConfigVariables rhs.ConfigVariables

/-- The mapping computation at the top of `expandConfigVariables`:
position of each new variable in the old variable list, or -1.  The Go
code panics (`assert`) when the old list has an entry not contained in
the new list; this is the `none` result. -/
def computeMapping (cv : List String) (i : Nat) : List String → Option (List Int)
  | [] => some []
  | nk :: rest =>
    if i = cv.length ∨ strLtB nk (cv.getD i "") then
      (computeMapping cv i rest).map fun m => -1 :: m
    else if cv.getD i "" = nk then
      (computeMapping cv (i + 1) rest).map fun m => (i : Int) :: m
    else none

/-- Model of `getNewConfigName`: expand an old key to the new variable list;
slots of new variables stay at the zero value (unbound, empty).  Go
indexes `old[m]` and would panic if the key were shorter than the old
variable list (never the case for well-formed Configs); the embedding
reads the zero value. -/
def getNewConfigName (mapping : List Int) (old : ConfigName) : ConfigName :=
  mapping.map fun m => if m = -1 then ⟨"", false⟩ else old.getD m.toNat ⟨"", false⟩

/-- Model of `Configs.expandConfigVariables`. -/
def Configs.expandConfigVariables (c : Configs) (newConfigVars : List String) :
    Option (List ConfigPair) :=
  (computeMapping c.ConfigVariables 0 newConfigVars).map fun mapping =>
    c.ByConfig.map fun kv => ⟨getNewConfigName mapping kv.Key, kv.Value⟩

/-- The merge loop of `Configs.Union`: adjacent entries with
compare-equal keys are unioned; `SetConfig`'s asserts (key length and
uniqueness) hold by construction of the sorted list. -/
def mergePairs : ConfigPair → List ConfigPair → Except String (List ConfigPair)
  | last, [] => .ok [last]
  | last, curr :: rest =>
    if compareConfigNames last.Key curr.Key = 0 then
      match last.Value.Union curr.Value with
      | .error e => .error e
      | .ok v => mergePairs ⟨last.Key, v⟩ rest
    else
      (mergePairs curr rest).map fun l => last :: l

/-- Model of `Configs.Union` from src/isolate/storage.go. -/
def Configs.Union (lhs rhs : Configs) : Except String Configs :=
  let vars := lhs.getConfigVarsUnion rhs
  let comment := if lhs.FileComment.length = 0 then rhs.FileComment else lhs.FileComment
  match lhs.expandConfigVariables vars, rhs.expandConfigVariables vars with
  | some le, some re =>
    match le ++ re with
    | [] => .ok ⟨comment, vars, []⟩
    | _ :: _ =>
      match List.insertionSort pairLe (le ++ re) with
      | [] => .ok ⟨comment, vars, []⟩
      | first :: rest => (mergePairs first rest).map fun merged => ⟨comment, vars, merged⟩
  | _, _ => .error "panic: new config variables must contain the old ones"

/-- Model of `KeyVars` (`map[string]string`), modelled as an association list
with the lookup of the first matching key (map keys are unique). -/
abbrev KeyVars := List (String × String)

/-- Map lookup `value, ok := kv[k]`. -/
def kvLookup (kv : KeyVars) (k : String) : Option String :=
  match kv with
  | [] => none
  | (a, b) :: rest => if a = k then some b else kvLookup rest k

/-- The loop of `computeConfigName`: builds the bound slots and the
missing-variable list, both in declaration order. -/
def collectVars (configVariables : KeyVars) : List String → ConfigName × List String
  | [] => ([], [])
  | v :: rest =>
    let r := collectVars configVariables rest
    match kvLookup configVariables v with
    | some value => (⟨value, true⟩ :: r.1, r.2)
    | none => (r.1, v :: r.2)

/-- Model of `computeConfigName` from src/isolate/storage.go.  The Go error is
`fmt.Errorf` embedding the sorted missing-variable list; the embedding
carries that sorted list as the error payload. -/
def computeConfigName (isolate : Configs) (configVariables : KeyVars) :
    Except (List String) ConfigName :=
  let r := collectVars configVariables isolate.ConfigVariables
  if r.2 = [] then .ok r.1
  else .error (goSortStrings r.2)

/-! ## FileMetadata and FileToMetadata (src/isolate/isolate.go)

`FileMetadata` is Go's `map[string]string` keyed by short tags; only the
keys h, s, t, l, m and priority are ever read or written, so the map is
modelled as a structure whose fields default to `""` (reading a missing
Go map key yields the empty string). -/

structure FileMetadata where
  h : String := ""
  s : String := ""
  t : String := ""
  l : String := ""
  m : String := ""
  priority : String := ""
deriving DecidableEq

/-- Model of `FileMetadata.IsSymlink`. -/
def FileMetadata.IsSymlink (meta : FileMetadata) : Bool :=
  meta.l ≠ ""

/-- Model of `FileMetadata.IsHighPriority`. -/
def FileMetadata.IsHighPriority (meta : FileMetadata) : Bool :=
  meta.priority = "0"

/-- Go's `string(i)` conversion of an integer: the one-character string
of the code point, or the replacement character U+FFFD for every
invalid code point (negative, surrogate, or above U+10FFFF). -/
def goRuneString (i : Int) : String :=
  if 0 ≤ i ∧ (i < 0xD800 ∨ (0xE000 ≤ i ∧ i ≤ 0x10FFFF)) then
    String.mk [Char.ofNat i.toNat]
  else "�"

/-- Model of `os.ModeSymlink`. -/
def goModeSymlink : Nat := 2 ^ 27

/-- Model of `os.ModeSticky`. -/
def goModeSticky : Nat := 2 ^ 20

/-- Model of `os.ModeSetgid`. -/
def goModeSetgid : Nat := 2 ^ 22

/-- Model of `os.ModeSetuid`. -/
def goModeSetuid : Nat := 2 ^ 23

/-- Model of `os.ModePerm`. -/
def goModePerm : Nat := 0o777

/-- Model of `unix.S_IWGRP`. -/
def S_IWGRP : Nat := 0o020

/-- Model of `unix.S_IRWXO`. -/
def S_IRWXO : Nat := 0o007

/-- Model of `unix.S_IWUSR`. -/
def S_IWUSR : Nat := 0o200

/-- Model of `unix.S_IXUSR`. -/
def S_IXUSR : Nat := 0o100

/-- Model of `unix.S_IRGRP`. -/
def S_IRGRP : Nat := 0o040

/-- Model of `unix.S_IXGRP`. -/
def S_IXGRP : Nat := 0o010

/-- Go's `x &^ mask` (AND NOT) for values below 2^32. -/
def andNot32 (x mask : Nat) : Nat :=
  x &&& (4294967295 - mask)

/-- Result of `os.Lstat`: the Go `FileMode` value, the Unix mtime and
the size.  The Go code never reads `Size()` — `out["s"]` is never set —
so the `size` field is carried only to state the claims about it. -/
structure GoStat where
  mode : Nat
  mtimeUnix : Int
  size : Int
deriving DecidableEq

/-- The filesystem facts `FileToMetadata` consults for one path.
`HashFile` streams the file content through SHA-1; the digest it would
produce is abstracted as `sha1Hex` (`none` models an open/read
failure).  The helpers used on the symlink branch
(`os.Readlink`, `common.GetNativePathCase`, `common.FixNativePathCase`)
are abstracted as result-valued fields. -/
structure FSEnv where
  lstat : Option GoStat
  sha1Hex : Option String
  readlinkRes : Except String String
  nativePathCaseRes : String → Except String String
  fixNativePathCaseRes : String → String → Except String String

/-- Model of `HashFile` (src/isolate/isolate.go): only sha-1 is supported. -/
def HashFile (env : FSEnv) (algo : String) : Except String String :=
  if algo ≠ "sha-1" then .error (algo ++ " is not supported, only sha-1")
  else
    match env.sha1Hex with
    | none => .error "failed to open or read the file"
    | some d => .ok d

/-- Model of `path.Dir` (posix path package). -/
def goPathDir (p : String) : String :=
  let rest := p.data.reverse.dropWhile fun c => c ≠ '/'
  if rest = [] then "."
  else goClean (String.mk rest.reverse)

/-- Model of `FileToMetadata` (src/isolate/isolate.go) on the modelled POSIX
platform (`common.IsWindows() = false`, so the mode block always runs).
Two quirks of the Go code are preserved because claims depend on them:
`out["m"]` is written only when `is_link` is true, and `out["s"]` is
never written, so the hash-cache check compares `prev["s"]` with the
empty string. -/
def FileToMetadata (env : FSEnv) (filePath : String) (prev : FileMetadata)
    (readOnly : Bool) (algo : String) : Except String FileMetadata :=
  match env.lstat with
  | none => .error ("file " ++ filePath ++ " is missing")
  | some filestats =>
    let is_link := filestats.mode &&& goModeSymlink ≠ 0
    let mask := goModePerm ||| goModeSticky ||| goModeSetgid ||| goModeSetuid
    let filemode0 := filestats.mode &&& mask
    let filemode1 := andNot32 filemode0 (S_IWGRP ||| S_IRWXO)
    let filemode2 := if readOnly then andNot32 filemode1 S_IWUSR else filemode1
    let filemode := if filemode2 &&& (S_IXUSR ||| S_IRGRP) = S_IXUSR ||| S_IRGRP
      then filemode2 ||| S_IXGRP
      else andNot32 filemode2 S_IXGRP
    let out0 : FileMetadata := if is_link then { m := goRuneString filemode } else {}
    let out1 := { out0 with t := goRuneString filestats.mtimeUnix }
    if ¬ is_link then
      let out2 := if prev.t = out1.t ∧ prev.s = out1.s then { out1 with h := prev.h } else out1
      if out2.h = "" then
        match HashFile env algo with
        | .error e => .error e
        | .ok d => .ok { out2 with h := d }
      else .ok out2
    else
      let out2 := if prev.t = out1.t then { out1 with l := prev.l } else out1
      if out2.l = "" then
        match env.readlinkRes with
        | .error e => .error e
        | .ok symlinkValue =>
          match env.nativePathCaseRes (goPathDir filePath) with
          | .error e => .error e
          | .ok filedir =>
            match env.fixNativePathCaseRes filedir symlinkValue with
            | .error e => .error e
            | .ok nativeDest =>
              match goRel nativeDest filedir with
              | .error e => .error e
              | .ok rel => .ok { out2 with l := rel }
      else .ok out2

/-! ## Upload items and the dedup stream (src/isolate/isolate.go and
the isolateserver package) -/

/-- Model of `FileAsset`: file metadata plus the absolute full path. -/
structure FileAsset where
  meta : FileMetadata
  fullPath : String
deriving DecidableEq

/-- The promoted `FileAsset.IsSymlink`. -/
def FileAsset.IsSymlink (fa : FileAsset) : Bool :=
  fa.meta.IsSymlink

/-- Digit scan used by the decimal `strconv.ParseInt`. -/
def digitsToNatAux : List Char → Nat → Option Nat
  | [], acc => some acc
  | c :: cs, acc =>
    if 48 ≤ c.toNat ∧ c.toNat ≤ 57 then digitsToNatAux cs (acc * 10 + (c.toNat - 48))
    else none

/-- Model of `strconv.ParseInt(s, 10, 64)`: optional sign, decimal digits,
64-bit range check; every failure (empty string, bad digit, overflow)
is `none`. -/
def goParseInt64 (s : String) : Option Int :=
  let core : List Char → Bool → Option Int := fun ds neg =>
    match ds with
    | [] => none
    | _ =>
      match digitsToNatAux ds 0 with
      | none => none
      | some n =>
        if neg then if n ≤ 2 ^ 63 then some (-(n : Int)) else none
        else if n ≤ 2 ^ 63 - 1 then some (n : Int) else none
  match s.data with
  | [] => none
  | '+' :: rest => core rest false
  | '-' :: rest => core rest true
  | l => core l false

/-- Model of `FileAsset.GetSize`: parse the cached size tag; on parse failure
fall back to `common.GetFileSize` (a stat), whose own failure panics.
`fsSize` supplies the stat result per path and `none` is the panic. -/
def FileAsset.GetSize (fsSize : String → Option Int) (fa : FileAsset) : Option Int :=
  match goParseInt64 fa.meta.s with
  | some n => some n
  | none => fsSize fa.fullPath

/-- Model of `isolateserver.Item`. -/
structure Item where
  Digest : String
  Size : Int
  HighPriority : Bool
  CompressionLevel : Int
deriving DecidableEq

/-- Model of `isolateserver.FileItem`: the upload item plus the file path. -/
structure FileItem where
  item : Item
  Path : String
deriving DecidableEq

/-- Model of `ALREADY_COMPRESSED_TYPES` from the isolateserver package:
extensions that should not receive any compression before upload.
`ToUploadItem` never consults it (its `get_zip_compression_level` is a
TODO in the source). -/
def ALREADY_COMPRESSED_TYPES : List String :=
  ["7z", "avi", "cur", "gif", "h264", "jar", "jpeg", "jpg", "mp4", "pdf",
   "png", "wav", "zip"]

/-- The scan of `filepath.Ext` over the reversed path. -/
def extScan : List Char → List Char → String
  | [], _ => ""
  | c :: rest, acc =>
    if c = '/' then ""
    else if c = '.' then String.mk ('.' :: acc)
    else extScan rest (c :: acc)

/-- Model of `filepath.Ext`: the suffix beginning at the final dot of the last
path component, or "" when there is none. -/
def goFilepathExt (p : String) : String :=
  extScan p.data.reverse []

/-- Model of `FileAsset.ToUploadItem`: digest, size and priority from the
metadata, compression level fixed at 6 regardless of the file
extension.  `none` models the panic inside `GetSize`. -/
def FileAsset.ToUploadItem (fsSize : String → Option Int) (fa : FileAsset) :
    Option FileItem :=
  (fa.GetSize fsSize).map fun sz =>
    ⟨⟨fa.meta.h, sz, fa.meta.IsHighPriority, 6⟩, fa.fullPath⟩

/-- The loop of `prepareItemsForUpload` with the `seen` path set as a
list.  The interrupt channel is modelled as never firing (an interrupt
only truncates the output stream).  A `none` result is the Go panic
inside `GetSize`. -/
def prepareLoop (fsSize : String → Option Int) :
    List FileAsset → List String → Option (List FileItem)
  | [], _ => some []
  | fa :: rest, seen =>
    if ¬ fa.IsSymlink ∧ ¬ seen.contains fa.fullPath then
      match fa.ToUploadItem fsSize with
      | none => none
      | some item =>
        (prepareLoop fsSize rest (fa.fullPath :: seen)).map fun out => item :: out
    else prepareLoop fsSize rest seen

/-- Model of `prepareItemsForUpload` (src/isolate/isolate.go): the stream of
upload items produced from the incoming FileAssets, in arrival order. -/
def prepareItemsForUpload (fsSize : String → Option Int) (chIn : List FileAsset) :
    Option (List FileItem) :=
  prepareLoop fsSize chIn []

/-! ## The archive pipeline entry point `Isolate` (src/isolate/isolate.go)

`Isolate` buffers the trees, calls `IsolateAsync` and then runs
`for err == nil { select { ... } }` over the three result channels.
`IsolateAsync` starts one worker per tree; the worker calls
`isolateTree` (currently a stub that always succeeds with the single
hash "test" and sends no FileAssets) and sends a `(target, hash, err)`
result.  The consumer goroutine folds the results in arrival order: on
the first error it sends that error and returns; otherwise it sends the
aggregated map on `chIsolateHashes` and then a nil error on `chError`
("Indicate success"), and closes both channels.  A receive on a closed
channel yields the Go zero value: nil for the error and the map, the
zero `FileAsset` for the asset channel. -/

/-- Model of `ArchiveOptions` (src/isolate/isolate.go). -/
structure ArchiveOptions where
  Isolate : String
  Isolated : String
  Blacklist : List String
  PathVariables : KeyVars
  ExtraVariables : KeyVars
  ConfigVariables : KeyVars
deriving DecidableEq

/-- Model of `Tree` (src/isolate/isolate.go). -/
structure Tree where
  Cwd : String
  Opts : ArchiveOptions
deriving DecidableEq

/-- Model of `filepath.Base` (unix). -/
def goFilepathBase (p : String) : String :=
  if p = "" then "."
  else
    let cs := p.data.reverse.dropWhile fun c => c = '/'
    if cs = [] then "/"
    else String.mk ((cs.takeWhile fun c => c ≠ '/').reverse)

/-- Model of `strings.TrimSuffix`. -/
def goTrimSuffix (s suffix : String) : String :=
  if suffix.data.isSuffixOf s.data then
    String.mk (s.data.take (s.data.length - suffix.data.length))
  else s

/-- Model of `common.GetFileNameWithoutExtension`. -/
def GetFileNameWithoutExtension (path : String) : String :=
  goTrimSuffix (goFilepathBase path) (goFilepathExt (goFilepathBase path))

/-- Model of `isolateTree`: the current code is a stub that always succeeds with
the single hash "test" and sends nothing on the FileAsset channel. -/
def isolateTree (_tree : Tree) : List String × Option String :=
  (["test"], none)

/-- One message on the `chResults` channel of `IsolateAsync`. -/
structure TreeResult where
  target : String
  hash : String
  err : Option String
deriving DecidableEq

/-- The per-tree worker body: the target name from `Opts.Isolated` and
`isolateTree`'s first hash (`treeIsolatedHashes[0]`; the stub always
returns exactly one). -/
def treeWorkerResult (tree : Tree) : TreeResult :=
  ⟨GetFileNameWithoutExtension tree.Opts.Isolated,
    (isolateTree tree).1.headD "", (isolateTree tree).2⟩

/-- The results produced by the tree workers, one per tree; the arrival
order on the unbuffered `chResults` channel is any permutation. -/
def resultsOf (trees : List Tree) : List TreeResult :=
  trees.map treeWorkerResult

/-- Model of `isolateHashes[r.target] = r.hash` on the association-list model of
the Go map. -/
def kvUpdate (kv : List (String × String)) (k v : String) : List (String × String) :=
  match kv with
  | [] => [(k, v)]
  | (a, b) :: rest => if a = k then (a, v) :: rest else (a, b) :: kvUpdate rest k v

/-- The consumer goroutine of `IsolateAsync` folded over the arrival
order of results: on the first error it sends only that error;
otherwise it sends the aggregated map and then the nil "success" error.
Returns the value sequences sent on (chIsolateHashes, chError). -/
def consumeResults : List TreeResult → List (String × String) →
    List (List (String × String)) × List (Option String)
  | [], acc => ([acc], [none])
  | r :: rest, acc =>
    match r.err with
    | some e => ([], [some e])
    | none => consumeResults rest (kvUpdate acc r.target r.hash)

/-- The three receive-channels of `Isolate`'s select loop: the buffered
values not yet received.  All three channels are closed once the
producers finish; a receive on a closed, drained channel yields the Go
zero value. -/
structure LoopChans where
  hashMsgs : List (List (String × String))
  assetMsgs : List FileAsset
  errMsgs : List (Option String)
deriving DecidableEq

/-- The local variables of `Isolate`'s loop plus the channel state.
`isolatedHashes` starts as the nil map (`none`). -/
structure LoopState where
  chans : LoopChans
  isolatedHashes : Option (List (String × String))
  fileAssets : List FileAsset
  err : Option String
deriving DecidableEq

/-- Which `select` case fires on one iteration. -/
inductive LoopPick
  | hashes
  | assets
  | errs
deriving DecidableEq

/-- One iteration body of `for err == nil { select { ... } }`: receive
from the picked channel — the next buffered value (`head`), or the zero
value once the channel is drained and closed (`none`, nil map, zero
FileAsset) — and update the matching variable. -/
def loopStep (st : LoopState) : LoopPick → LoopState
  | .hashes =>
    { st with
      chans := { st.chans with hashMsgs := st.chans.hashMsgs.tail },
      isolatedHashes := st.chans.hashMsgs.head? }
  | .assets =>
    { st with
      chans := { st.chans with assetMsgs := st.chans.assetMsgs.tail },
      fileAssets := st.fileAssets ++ [st.chans.assetMsgs.headD ⟨{}, ""⟩] }
  | .errs =>
    { st with
      chans := { st.chans with errMsgs := st.chans.errMsgs.tail },
      err := st.chans.errMsgs.headD none }

/-- The loop of `Isolate` run under a finite schedule of select picks;
the guard `err == nil` is checked before every iteration, exactly as in
the Go `for` loop, and the loop exits (the state is final) once `err`
is non-nil. -/
def loopRun (st : LoopState) : List LoopPick → LoopState
  | [] => st
  | p :: ps => if st.err = none then loopRun (loopStep st p) ps else st

/-- The channel contents `Isolate`'s loop can observe for a run whose
per-tree results arrive in the order `arrival`: the consumer's sends,
no FileAsset messages (the stub sends none), and all channels closed
after that. -/
def initLoopState (arrival : List TreeResult) : LoopState :=
  ⟨⟨(consumeResults arrival []).1, [], (consumeResults arrival []).2⟩, none, [], none⟩

/-! ## Properties and claim theorems -/

example : goClean "/d" = "/d" := by decide

example : goClean "a/.." = "." := by decide

example : goClean "/a/b/../c/" = "/a/c" := by decide

example : goRel "/d" "/d" = .ok "." := by decide

example : goRel "/b" "/c" = .ok "../c" := by decide

example : goRel "/a/b" "/a/c/d" = .ok "../c/d" := by decide

example : posixpathJoin2 "../a" "../b/z" = "../b/z" := by decide

example : posixpathJoin2 "../a" "y" = "../a/y" := by decide

theorem charLtB_irrefl (a : Char) : charLtB a a = false := by
  simp [charLtB]

theorem charLtB_eq_true {a b : Char} (h : a.toNat < b.toNat) : charLtB a b = true := by
  simp [charLtB, h]

theorem charLtB_eq_false {a b : Char} (h : ¬ a.toNat < b.toNat) : charLtB a b = false := by
  simp [charLtB, h]

theorem charEq_of_toNat {a b : Char} (h : a.toNat = b.toNat) : a = b := by
  rw [← Char.ofNat_toNat a, h, Char.ofNat_toNat]

theorem listCharLtB_irrefl (l : List Char) : listCharLtB l l = false := by
  induction l with
  | nil => rfl
  | cons a as ih => simp [listCharLtB, charLtB_irrefl, ih]

theorem listCharLtB_trans : ∀ {l1 l2 l3 : List Char},
    listCharLtB l1 l2 = true → listCharLtB l2 l3 = true → listCharLtB l1 l3 = true
  | _, _, [] , _, h2 => by simp [listCharLtB] at h2
  | [], _ :: _, _ :: _, _, _ => rfl
  | _ :: _, [], _, h1, _ => by simp [listCharLtB] at h1
  | a :: as, b :: bs, c :: cs, h1, h2 => by
    simp only [listCharLtB] at h1 h2 ⊢
    rcases Nat.lt_trichotomy a.toNat b.toNat with hab | hab | hab
    · rcases Nat.lt_trichotomy b.toNat c.toNat with hbc | hbc | hbc
      · simp [charLtB_eq_true (Nat.lt_trans hab hbc)]
      · have e := charEq_of_toNat hbc
        subst e
        simp [charLtB_eq_true hab]
      · rw [charLtB_eq_false (Nat.lt_asymm hbc), charLtB_eq_true hbc] at h2
        simp at h2
    · have e := charEq_of_toNat hab
      subst e
      simp only [charLtB_irrefl] at h1 h2 ⊢
      simp only [Bool.false_eq_true, if_false] at h1 h2 ⊢
      rcases hac : charLtB a c with _ | _
      · rcases hca : charLtB c a with _ | _
        · simp only [hac, hca, Bool.false_eq_true, if_false] at h2 ⊢
          exact listCharLtB_trans h1 h2
        · simp [hac, hca] at h2
      · simp [hac]
    · rw [charLtB_eq_false (Nat.lt_asymm hab), charLtB_eq_true hab] at h1
      simp at h1

theorem listCharLtB_eq_of_not : ∀ {l1 l2 : List Char},
    listCharLtB l1 l2 = false → listCharLtB l2 l1 = false → l1 = l2
  | [], [], _, _ => rfl
  | [], _ :: _, h1, _ => by simp [listCharLtB] at h1
  | _ :: _, [], _, h2 => by simp [listCharLtB] at h2
  | a :: as, b :: bs, h1, h2 => by
    simp only [listCharLtB] at h1 h2
    rcases Nat.lt_trichotomy a.toNat b.toNat with hab | hab | hab
    · rw [charLtB_eq_true hab] at h1
      simp at h1
    · have e := charEq_of_toNat hab
      subst e
      simp only [charLtB_irrefl, Bool.false_eq_true, if_false] at h1 h2
      rw [listCharLtB_eq_of_not h1 h2]
    · rw [charLtB_eq_true hab] at h2
      simp at h2

theorem strLtB_irrefl (a : String) : strLtB a a = false :=
  listCharLtB_irrefl a.data

theorem strLtB_trans {a b c : String} (h1 : strLtB a b = true)
    (h2 : strLtB b c = true) : strLtB a c = true :=
  listCharLtB_trans h1 h2

theorem strLtB_eq_of_not {a b : String} (h1 : strLtB a b = false)
    (h2 : strLtB b a = false) : a = b := by
  cases a; cases b
  exact congrArg String.mk (listCharLtB_eq_of_not h1 h2)

instance : IsTotal String goStrLe := by
  constructor
  intro a b
  unfold goStrLe strLeB
  rcases h : strLtB b a with _ | _
  · left; simp
  · right
    rcases h2 : strLtB a b with _ | _
    · simp
    · exact absurd (strLtB_trans h h2) (by simp [strLtB_irrefl])

instance : IsTrans String goStrLe := by
  constructor
  intro a b c h1 h2
  unfold goStrLe strLeB at *
  simp only [Bool.not_eq_true'] at h1 h2 ⊢
  rcases h : strLtB c a with _ | _
  · rfl
  · rcases h3 : strLtB b c with _ | _
    · have hbc := strLtB_eq_of_not h3 h2
      subst hbc
      exact h ▸ h1
    · exact absurd (strLtB_trans h3 h) (by simp [h1])

instance : IsAntisymm String goStrLe := by
  constructor
  intro a b h1 h2
  unfold goStrLe strLeB at h1 h2
  simp only [Bool.not_eq_true'] at h1 h2
  exact strLtB_eq_of_not h2 h1

example :
    ConfigSettings.Union ⟨[], ["x"], -1, "/d"⟩ ⟨[], ["y"], -1, "/d"⟩ =
      .ok ⟨[], ["x"], -1, "/d"⟩ := by decide

/-- C8 counterexample: take the canonical empty settings
`e = {Files [], Command [], ReadOnly 0, IsolateDir ""}` and
`s = {Files [], Command [], ReadOnly -1, IsolateDir ""}` (a legitimate
empty marker: `Init` accepts empty Files/Command with any ReadOnly when
IsolateDir is unset).  `s.Union(e)` returns `e`, not `s`: the ReadOnly
field changes from -1 to 0, so the union with the empty marker is not an
identity on `s`. -/
theorem c8_union_empty_not_identity :
    ConfigSettings.Init ⟨[], [], -1⟩ "" = .ok ⟨[], [], -1, ""⟩ ∧
    ConfigSettings.Union ⟨[], [], -1, ""⟩ ⟨[], [], 0, ""⟩ = .ok ⟨[], [], 0, ""⟩ ∧
    ¬ ConfigSettings.Union ⟨[], [], -1, ""⟩ ⟨[], [], 0, ""⟩ = .ok ⟨[], [], -1, ""⟩ := by
  decide

/-- C8 (amended): union with an empty marker `e` is an identity on the
other side whenever that side is not itself an empty marker:
`e.Union(s)` returns `s` unchanged for every `s`, and `s.Union(e)`
returns `s` unchanged whenever `s.IsolateDir` is non-empty (when `s` is
itself an empty marker, `s.Union(e)` returns `e` instead). -/
theorem c8_union_empty_identity (s e : ConfigSettings) (he : e.IsolateDir = "") :
    ConfigSettings.Union e s = .ok s ∧
      (s.IsolateDir ≠ "" → ConfigSettings.Union s e = .ok s) := by
  constructor
  · simp [ConfigSettings.Union, he]
  · intro hs
    simp [ConfigSettings.Union, he, hs]

/-- C8 witness: the amended identity at a concrete non-empty settings
value. -/
theorem c8_union_empty_identity_witness :
    ConfigSettings.Union ⟨[], [], 0, ""⟩ ⟨["a"], ["run"], 1, "/d"⟩ =
        .ok ⟨["a"], ["run"], 1, "/d"⟩ ∧
    ConfigSettings.Union ⟨["a"], ["run"], 1, "/d"⟩ ⟨[], [], 0, ""⟩ =
        .ok ⟨["a"], ["run"], 1, "/d"⟩ := by
  have h := c8_union_empty_identity ⟨["a"], ["run"], 1, "/d"⟩ ⟨[], [], 0, ""⟩ rfl
  exact ⟨h.1, h.2 (by decide)⟩

/-- C3 counterexample: unioning two non-empty settings with the same
IsolateDir and an overlapping file list keeps the duplicate: Go builds
`files` by concatenation and sorts, but never de-duplicates. -/
theorem c3_union_files_duplicated :
    ConfigSettings.Union ⟨["a"], [], -1, "/d"⟩ ⟨["a"], [], -1, "/d"⟩ =
      .ok ⟨["a", "a"], [], -1, "/d"⟩ ∧
    ¬ (["a", "a"] : List String).Nodup := by
  decide

theorem init_ok_files_sorted {v : ParsedIsolate} {d : String} {r : ConfigSettings}
    (h : ConfigSettings.Init v d = .ok r) : r.Files.Sorted goStrLe := by
  rw [ConfigSettings.Init] at h
  split at h
  · split at h
    · cases h
      exact List.sorted_insertionSort _ _
    · cases h
  · split at h
    · cases h
      exact List.sorted_insertionSort _ _
    · cases h

/-- C3 (amended): the `Files` list of every settings value produced by
`ConfigSettings.Union` on two non-empty inputs is sorted (in Go's string
order), but it is not de-duplicated: when the (possibly rebased) file
lists overlap, duplicate paths survive (see the counterexample). -/
theorem c3_union_files_sorted (lhs rhs r : ConfigSettings)
    (hl : lhs.IsolateDir ≠ "") (hr : rhs.IsolateDir ≠ "")
    (h : ConfigSettings.Union lhs rhs = .ok r) :
    r.Files.Sorted goStrLe := by
  rw [ConfigSettings.Union, if_neg hl, if_neg hr] at h
  dsimp only at h
  split at h
  · cases h
  · exact init_ok_files_sorted h

/-- C3 witness: sortedness of the union's file list at a concrete pair
whose file lists overlap. -/
theorem c3_union_files_sorted_witness :
    ConfigSettings.Union ⟨["b", "a"], [], -1, "/d"⟩ ⟨["a"], [], -1, "/d"⟩ =
        .ok ⟨["a", "a", "b"], [], -1, "/d"⟩ ∧
    (["a", "a", "b"] : List String).Sorted goStrLe := by
  have h : ConfigSettings.Union ⟨["b", "a"], [], -1, "/d"⟩ ⟨["a"], [], -1, "/d"⟩ =
      .ok ⟨["a", "a", "b"], [], -1, "/d"⟩ := by decide
  exact ⟨h, c3_union_files_sorted ⟨["b", "a"], [], -1, "/d"⟩ ⟨["a"], [], -1, "/d"⟩
    ⟨["a", "a", "b"], [], -1, "/d"⟩ (by decide) (by decide) h⟩

theorem collectVars_snd (kv : KeyVars) (l : List String) :
    (collectVars kv l).2 = l.filter fun v => (kvLookup kv v).isNone := by
  induction l with
  | nil => rfl
  | cons v rest ih =>
    simp only [collectVars, List.filter]
    rcases h : kvLookup kv v with _ | value <;> simp [h, ih]

theorem collectVars_fst (kv : KeyVars) (l : List String)
    (h : (collectVars kv l).2 = []) :
    (collectVars kv l).1 = l.map fun v => ⟨(kvLookup kv v).getD "", true⟩ := by
  induction l with
  | nil => rfl
  | cons v rest ih =>
    simp only [collectVars] at h ⊢
    rcases hv : kvLookup kv v with _ | value <;> simp only [hv] at h ⊢
    · cases h
    · simp [ih h, hv]

/-- C9: `computeConfigName` fails exactly when at least one declared
ConfigVariable is absent from the supplied variable map, and the single
error reports the full list of missing variable names, sorted. -/
theorem computeConfigName_missing_spec (c : Configs) (kv : KeyVars) :
    ((∃ ms, computeConfigName c kv = .error ms) ↔
      ∃ v ∈ c.ConfigVariables, kvLookup kv v = none) ∧
    (∀ ms, computeConfigName c kv = .error ms →
      ms = goSortStrings (c.ConfigVariables.filter fun v => (kvLookup kv v).isNone) ∧
      ms.Sorted goStrLe) := by
  constructor
  · rw [computeConfigName]
    by_cases h : (collectVars kv c.ConfigVariables).2 = []
    · rw [if_pos h]
      rw [collectVars_snd] at h
      simp only [List.filter_eq_nil_iff] at h
      constructor
      · rintro ⟨ms, hms⟩
        cases hms
      · rintro ⟨v, hv, hnone⟩
        exact absurd (by simp [hnone]) (h v hv)
    · simp only [if_neg h]
      constructor
      · intro _
        rw [collectVars_snd] at h
        rcases hf : List.filter (fun v => (kvLookup kv v).isNone) c.ConfigVariables with
          _ | ⟨v, rest⟩
        · exact absurd hf h
        · have hv : v ∈ List.filter (fun v => (kvLookup kv v).isNone) c.ConfigVariables := by
            rw [hf]; exact List.mem_cons_self v rest
          rw [List.mem_filter] at hv
          exact ⟨v, hv.1, by simpa using hv.2⟩
      · intro _
        exact ⟨_, rfl⟩
  · intro ms hms
    rw [computeConfigName] at hms
    by_cases h : (collectVars kv c.ConfigVariables).2 = []
    · rw [if_pos h] at hms
      cases hms
    · rw [if_neg h] at hms
      simp only [Except.error.injEq] at hms
      subst hms
      rw [collectVars_snd]
      exact ⟨rfl, List.sorted_insertionSort _ _⟩

/-- C9 witness: with declared variables `OS` and `bits` and only `OS`
supplied, the error reports exactly `[bits]`, sorted. -/
theorem computeConfigName_missing_spec_witness :
    computeConfigName ⟨"", ["bits", "OS"], []⟩ [("OS", "linux")] = .error ["bits"] ∧
    ["bits"] = goSortStrings
      ((["bits", "OS"] : List String).filter fun v =>
        (kvLookup [("OS", "linux")] v).isNone) ∧
    (["bits"] : List String).Sorted goStrLe := by
  have h : computeConfigName ⟨"", ["bits", "OS"], []⟩ [("OS", "linux")] = .error ["bits"] := by
    decide
  have h2 := (computeConfigName_missing_spec ⟨"", ["bits", "OS"], []⟩ [("OS", "linux")]).2
    ["bits"] h
  exact ⟨h, h2.1, h2.2⟩

/-- C10: whenever `computeConfigName` succeeds, the resulting ConfigName
has exactly one slot per declared ConfigVariable, in declaration order,
and every slot is bound to the value from the supplied map. -/
theorem computeConfigName_ok_fully_bound (c : Configs) (kv : KeyVars)
    (name : ConfigName) (h : computeConfigName c kv = .ok name) :
    name = (c.ConfigVariables.map fun v => ⟨(kvLookup kv v).getD "", true⟩) ∧
    name.length = c.ConfigVariables.length ∧
    ∀ e ∈ name, e.IsBound = true := by
  rw [computeConfigName] at h
  by_cases hm : (collectVars kv c.ConfigVariables).2 = []
  · rw [if_pos hm] at h
    simp only [Except.ok.injEq] at h
    subst h
    refine ⟨collectVars_fst kv c.ConfigVariables hm, ?_, ?_⟩
    · rw [collectVars_fst kv c.ConfigVariables hm, List.length_map]
    · intro e he
      rw [collectVars_fst kv c.ConfigVariables hm] at he
      rcases List.mem_map.mp he with ⟨v, _, hv⟩
      rw [← hv]
  · rw [if_neg hm] at h
    cases h

/-- C10 witness: a concrete success case with two declared variables. -/
theorem computeConfigName_ok_fully_bound_witness :
    computeConfigName ⟨"", ["OS", "bits"], []⟩ [("OS", "linux"), ("bits", "64")] =
      .ok [⟨"linux", true⟩, ⟨"64", true⟩] ∧
    ([⟨"linux", true⟩, ⟨"64", true⟩] : ConfigName).length = 2 ∧
    ∀ e ∈ ([⟨"linux", true⟩, ⟨"64", true⟩] : ConfigName), e.IsBound = true := by
  have h : computeConfigName ⟨"", ["OS", "bits"], []⟩ [("OS", "linux"), ("bits", "64")] =
      .ok [⟨"linux", true⟩, ⟨"64", true⟩] := by decide
  have h2 := computeConfigName_ok_fully_bound ⟨"", ["OS", "bits"], []⟩
    [("OS", "linux"), ("bits", "64")] [⟨"linux", true⟩, ⟨"64", true⟩] h
  exact ⟨h, h2.2⟩

theorem dedupLoop_spec : ∀ {l : List String} {last : String},
    List.Pairwise goStrLe (last :: l) →
    (last :: dedupLoop last l).Nodup ∧
    List.Pairwise goStrLe (last :: dedupLoop last l) ∧
    ∀ a, a ∈ last :: dedupLoop last l ↔ a ∈ last :: l := by
  intro l
  induction l with
  | nil =>
    intro last _
    exact ⟨by simp [dedupLoop], by simp [dedupLoop], by simp [dedupLoop]⟩
  | cons c cs ih =>
    intro last hs
    by_cases hc : c = last
    · subst hc
      rw [dedupLoop, if_pos rfl]
      rcases ih (List.Pairwise.of_cons hs) with ⟨h1, h2, h3⟩
      refine ⟨h1, h2, fun a => ?_⟩
      rw [h3 a]
      simp only [List.mem_cons]
      tauto
    · rw [dedupLoop, if_neg hc]
      have hs2 : List.Pairwise goStrLe (c :: cs) := List.Pairwise.of_cons hs
      rcases ih hs2 with ⟨h1, h2, h3⟩
      have hlastle : ∀ a ∈ c :: cs, goStrLe last a := (List.pairwise_cons.mp hs).1
      have hmem : ∀ a, a ∈ c :: dedupLoop c cs → a ∈ c :: cs := fun a ha => (h3 a).mp ha
      refine ⟨?_, ?_, ?_⟩
      · rw [List.nodup_cons]
        refine ⟨fun hin => ?_, h1⟩
        rcases List.mem_cons.mp (hmem last hin) with h | h
        · exact hc h.symm
        · have h4 : goStrLe c last := (List.pairwise_cons.mp hs2).1 last h
          have h5 : goStrLe last c := hlastle c (List.mem_cons_self c cs)
          exact hc (antisymm h4 h5)
      · rw [List.pairwise_cons]
        exact ⟨fun a ha => hlastle a (hmem a ha), h2⟩
      · intro a
        rw [List.mem_cons, h3 a, ← List.mem_cons]

theorem dedupAdj_spec {l : List String} (hs : List.Pairwise goStrLe l) :
    (dedupAdj l).Nodup ∧ List.Pairwise goStrLe (dedupAdj l) ∧
    ∀ a, a ∈ dedupAdj l ↔ a ∈ l := by
  cases l with
  | nil => simp [dedupAdj]
  | cons x xs => exact dedupLoop_spec hs

theorem goSortStrings_sorted (l : List String) :
    List.Pairwise goStrLe (goSortStrings l) :=
  List.sorted_insertionSort goStrLe l

theorem goSortStrings_mem (l : List String) (a : String) :
    a ∈ goSortStrings l ↔ a ∈ l :=
  (List.perm_insertionSort goStrLe l).mem_iff

theorem sortedDedup_eq_of_mem_iff {l1 l2 : List String}
    (h : ∀ a, a ∈ l1 ↔ a ∈ l2) :
    dedupAdj (goSortStrings l1) = dedupAdj (goSortStrings l2) := by
  rcases dedupAdj_spec (goSortStrings_sorted l1) with ⟨n1, s1, m1⟩
  rcases dedupAdj_spec (goSortStrings_sorted l2) with ⟨n2, s2, m2⟩
  have hmem : ∀ a, a ∈ dedupAdj (goSortStrings l1) ↔ a ∈ dedupAdj (goSortStrings l2) := by
    intro a
    rw [m1 a, m2 a, goSortStrings_mem, goSortStrings_mem]
    exact h a
  exact List.eq_of_perm_of_sorted ((List.perm_ext_iff_of_nodup n1 n2).mpr hmem) s1 s2

theorem varsUnionL_of_ne {l1 l2 : List String} (h : l1 ++ l2 ≠ []) :
    varsUnionL l1 l2 = dedupAdj (goSortStrings (l1 ++ l2)) := by
  rw [varsUnionL, if_neg h]

theorem varsUnionL_mem (l1 l2 : List String) (a : String) :
    a ∈ varsUnionL l1 l2 ↔ a ∈ l1 ++ l2 := by
  rw [varsUnionL]
  by_cases h : l1 ++ l2 = []
  · rw [if_pos h]
  · rw [if_neg h]
    rw [(dedupAdj_spec (goSortStrings_sorted (l1 ++ l2))).2.2 a, goSortStrings_mem]

theorem varsUnionL_eq_nil (l1 l2 : List String) :
    varsUnionL l1 l2 = [] ↔ l1 ++ l2 = [] := by
  rw [varsUnionL]
  by_cases h : l1 ++ l2 = []
  · rw [if_pos h]
  · rw [if_neg h]
    constructor
    · intro hd
      exfalso
      rcases hl : l1 ++ l2 with _ | ⟨x, xs⟩
      · exact h hl
      · have hx : x ∈ dedupAdj (goSortStrings (l1 ++ l2)) := by
          rw [(dedupAdj_spec (goSortStrings_sorted (l1 ++ l2))).2.2 x,
            goSortStrings_mem, hl]
          exact List.mem_cons_self x xs
        rw [hd] at hx
        cases hx
    · intro hd
      exact absurd hd h

theorem varsUnionL_comm (l1 l2 : List String) :
    varsUnionL l1 l2 = varsUnionL l2 l1 := by
  by_cases h : l1 ++ l2 = []
  · rw [List.append_eq_nil] at h
    rw [h.1, h.2]
  · have h2 : l2 ++ l1 ≠ [] := by
      intro hh
      rw [List.append_eq_nil] at hh h
      exact h ⟨hh.2, hh.1⟩
    rw [varsUnionL_of_ne h, varsUnionL_of_ne h2]
    refine sortedDedup_eq_of_mem_iff fun a => ?_
    simp only [List.mem_append]
    tauto

theorem varsUnionL_assoc (l1 l2 l3 : List String) :
    varsUnionL (varsUnionL l1 l2) l3 = varsUnionL l1 (varsUnionL l2 l3) := by
  by_cases h : l1 = [] ∧ l2 = [] ∧ l3 = []
  · rw [h.1, h.2.1, h.2.2]
    rfl
  · have hA : varsUnionL l1 l2 ++ l3 ≠ [] := by
      intro hh
      rw [List.append_eq_nil] at hh
      have h1 := (varsUnionL_eq_nil l1 l2).mp hh.1
      rw [List.append_eq_nil] at h1
      exact h ⟨h1.1, h1.2, hh.2⟩
    have hB : l1 ++ varsUnionL l2 l3 ≠ [] := by
      intro hh
      rw [List.append_eq_nil] at hh
      have h1 := (varsUnionL_eq_nil l2 l3).mp hh.2
      rw [List.append_eq_nil] at h1
      exact h ⟨hh.1, h1.1, h1.2⟩
    rw [varsUnionL_of_ne hA, varsUnionL_of_ne hB]
    refine sortedDedup_eq_of_mem_iff fun a => ?_
    simp only [List.mem_append, varsUnionL_mem, List.mem_append]
    tauto

theorem configsUnion_ok_vars {a b u : Configs} (h : Configs.Union a b = .ok u) :
    u.ConfigVariables = a.getConfigVarsUnion b := by
  rw [Configs.Union] at h
  rcases ha : a.expandConfigVariables (a.getConfigVarsUnion b) with _ | le <;>
    rcases hb : b.expandConfigVariables (a.getConfigVarsUnion b) with _ | re <;>
      simp only [ha, hb] at h
  · cases h
  · cases h
  · cases h
  · rcases hl : le ++ re with _ | ⟨first, rest⟩ <;> simp only [hl] at h
    · cases h
      rfl
    · rcases hm : List.insertionSort pairLe (first :: rest) with _ | ⟨f2, r2⟩ <;>
        simp only [hm] at h
      · cases h
        rfl
      · rcases hmp : mergePairs f2 r2 with e | merged <;> simp only [hmp, Except.map] at h
        · cases h
        · cases h
          rfl

/-- C2 counterexample: two Configs binding the same fully-bound
ConfigName (`OS = linux`) to settings with different Commands.  The
resolved `ConfigSettings` for that name is `command [x]` under
`a.Union(b)` but `command [y]` under `b.Union(a)`: `ConfigSettings.Union`
gives the left operand's Command priority, so `Configs.Union` is not
commutative on the merged ByConfig content. -/
theorem c2_union_getConfig_not_commutative :
    ((Configs.Union ⟨"", ["OS"], [⟨[⟨"linux", true⟩], ⟨[], ["x"], -1, "/d"⟩⟩]⟩
        ⟨"", ["OS"], [⟨[⟨"linux", true⟩], ⟨[], ["y"], -1, "/d"⟩⟩]⟩).bind
      fun u => u.GetConfig [⟨"linux", true⟩]) = .ok ⟨[], ["x"], -1, "/d"⟩ ∧
    ((Configs.Union ⟨"", ["OS"], [⟨[⟨"linux", true⟩], ⟨[], ["y"], -1, "/d"⟩⟩]⟩
        ⟨"", ["OS"], [⟨[⟨"linux", true⟩], ⟨[], ["x"], -1, "/d"⟩⟩]⟩).bind
      fun u => u.GetConfig [⟨"linux", true⟩]) = .ok ⟨[], ["y"], -1, "/d"⟩ ∧
    (⟨[], ["x"], -1, "/d"⟩ : ConfigSettings) ≠ ⟨[], ["y"], -1, "/d"⟩ := by
  decide

/-- C2 (amended): `Configs.Union` is commutative and associative on the
merged `ConfigVariables` name list, but not on the merged ByConfig
content: when the same ConfigName carries conflicting settings on the
two sides, the ConfigSettings resolved via GetConfig for a fully-bound
name depends on the union order (the left operand's Command wins, see
the counterexample). -/
theorem c2_union_vars_comm_assoc (a b c u v w p q : Configs)
    (hu : Configs.Union a b = .ok u) (hv : Configs.Union b a = .ok v)
    (hw : Configs.Union b c = .ok w)
    (hp : Configs.Union u c = .ok p) (hq : Configs.Union a w = .ok q) :
    u.ConfigVariables = v.ConfigVariables ∧
    p.ConfigVariables = q.ConfigVariables := by
  have eu := configsUnion_ok_vars hu
  have ev := configsUnion_ok_vars hv
  have ew := configsUnion_ok_vars hw
  have ep := configsUnion_ok_vars hp
  have eq2 := configsUnion_ok_vars hq
  rw [Configs.getConfigVarsUnion] at eu ev ew ep eq2
  constructor
  · rw [eu, ev]
    exact varsUnionL_comm _ _
  · rw [ep, eq2, eu, ew]
    exact varsUnionL_assoc _ _ _

/-- C2 witness: the amended commutativity/associativity of the merged
variable axis at concrete Configs values. -/
theorem c2_union_vars_comm_assoc_witness :
    Configs.Union ⟨"", ["OS"], []⟩ ⟨"", ["bits"], []⟩ = .ok ⟨"", ["OS", "bits"], []⟩ ∧
    Configs.Union ⟨"", ["bits"], []⟩ ⟨"", ["OS"], []⟩ = .ok ⟨"", ["OS", "bits"], []⟩ ∧
    Configs.Union ⟨"", ["bits"], []⟩ ⟨"", ["OS"], []⟩ = .ok ⟨"", ["OS", "bits"], []⟩ ∧
    Configs.Union ⟨"", ["OS", "bits"], []⟩ ⟨"", ["OS"], []⟩ =
      .ok ⟨"", ["OS", "bits"], []⟩ ∧
    Configs.Union ⟨"", ["OS"], []⟩ ⟨"", ["OS", "bits"], []⟩ =
      .ok ⟨"", ["OS", "bits"], []⟩ ∧
    (["OS", "bits"] : List String) = ["OS", "bits"] := by
  have h1 : Configs.Union ⟨"", ["OS"], []⟩ ⟨"", ["bits"], []⟩ =
      .ok ⟨"", ["OS", "bits"], []⟩ := by decide
  have h2 : Configs.Union ⟨"", ["bits"], []⟩ ⟨"", ["OS"], []⟩ =
      .ok ⟨"", ["OS", "bits"], []⟩ := by decide
  have h3 : Configs.Union ⟨"", ["OS", "bits"], []⟩ ⟨"", ["OS"], []⟩ =
      .ok ⟨"", ["OS", "bits"], []⟩ := by decide
  have h4 : Configs.Union ⟨"", ["OS"], []⟩ ⟨"", ["OS", "bits"], []⟩ =
      .ok ⟨"", ["OS", "bits"], []⟩ := by decide
  exact ⟨h1, h2, h2, h3, h4,
    (c2_union_vars_comm_assoc ⟨"", ["OS"], []⟩ ⟨"", ["bits"], []⟩ ⟨"", ["OS"], []⟩
      _ _ _ _ _ h1 h2 h2 h3 h4).2⟩

/-- C1: the hash-reuse shortcut is broken.  Cached record: mtime 1000,
size "5", hash "cachedhash"; current stat: mtime 1000, size 5 — both
match, so the claim (and the code's own comment) say the cached hash is
reused.  The code instead recomputes: it compares `prev["s"]` against
`out["s"]`, but `out["s"]` is never written, so the comparison is
`"5" = ""` and fails; the result carries the freshly computed digest. -/
theorem c1_hash_reuse_broken :
    FileToMetadata
        ⟨some ⟨0o644, 1000, 5⟩, some "freshdigest", .error "", fun _ => .error "",
          fun _ _ => .error ""⟩
        "/root/f" ⟨"cachedhash", "5", goRuneString 1000, "", "", ""⟩ false "sha-1" =
      .ok ⟨"freshdigest", "", goRuneString 1000, "", "", ""⟩ ∧
    ("freshdigest" : String) ≠ "cachedhash" ∧
    FileToMetadata
        ⟨some ⟨0o644, 1000, 5⟩, some "freshdigest", .error "", fun _ => .error "",
          fun _ _ => .error ""⟩
        "/root/f" ⟨"cachedhash", "", goRuneString 1000, "", "", ""⟩ false "sha-1" =
      .ok ⟨"cachedhash", "", goRuneString 1000, "", "", ""⟩ := by
  decide

/-- C5: the POSIX mode tag is recorded for the wrong files.  For a
regular file (mode 0644, POSIX) the result has no `m` tag at all — the
Go code writes `out["m"]` only under `if is_link` — while for a symlink
(0777 plus the symlink bit) the tag is present with value
`string(0750)`. -/
theorem c5_mode_tag_only_on_symlinks :
    (FileToMetadata
        ⟨some ⟨0o644, 7, 3⟩, some "digest", .error "", fun _ => .error "",
          fun _ _ => .error ""⟩
        "/r/f" {} false "sha-1").map (fun o => o.m) = .ok "" ∧
    (FileToMetadata
        ⟨some ⟨0o777 + 2 ^ 27, 7, 3⟩, none, .error "", fun _ => .error "",
          fun _ _ => .error ""⟩
        "/r/f" ⟨"", "", goRuneString 7, "target", "", ""⟩ false "sha-1").map
      (fun o => o.m) = .ok (goRuneString 0o750) ∧
    goRuneString 0o750 ≠ "" := by
  decide

/-- C7: compression is never disabled.  `png` is in
`ALREADY_COMPRESSED_TYPES` and `/x/a.png` has extension `.png`, yet the
UploadItem built from it carries the fixed compression level 6:
`ToUploadItem` sets the constant and never inspects the extension, so
the known-incompressible set has no effect. -/
theorem c7_compression_never_disabled :
    ("png" ∈ ALREADY_COMPRESSED_TYPES) ∧
    goFilepathExt "/x/a.png" = ".png" ∧
    FileAsset.ToUploadItem (fun _ => none) ⟨⟨"d", "3", "", "", "", ""⟩, "/x/a.png"⟩ =
      some ⟨⟨"d", 3, false, 6⟩, "/x/a.png"⟩ := by
  decide

theorem toUploadItem_path {fsSize : String → Option Int} {fa : FileAsset}
    {it : FileItem} (h : fa.ToUploadItem fsSize = some it) :
    it.Path = fa.fullPath := by
  rw [FileAsset.ToUploadItem] at h
  rcases hs : fa.GetSize fsSize with _ | sz <;> rw [hs] at h
  · cases h
  · cases h
    rfl

theorem prepareLoop_spec (fsSize : String → Option Int) :
    ∀ (input : List FileAsset) (seen : List String) (out : List FileItem),
    prepareLoop fsSize input seen = some out →
    (out.map FileItem.Path).Nodup ∧
    (∀ it ∈ out, ¬ it.Path ∈ seen) ∧
    (∀ it ∈ out, ∃ fa ∈ input, fa.IsSymlink = false ∧ fa.ToUploadItem fsSize = some it) := by
  intro input
  induction input with
  | nil =>
    intro seen out h
    cases h
    simp
  | cons fa rest ih =>
    intro seen out h
    rw [prepareLoop] at h
    split at h
    · rcases hti : fa.ToUploadItem fsSize with _ | item <;> rw [hti] at h
      · cases h
      · rcases hrec : prepareLoop fsSize rest (fa.fullPath :: seen) with _ | out2 <;>
          rw [hrec] at h
        · cases h
        · cases h
          rcases ih (fa.fullPath :: seen) out2 hrec with ⟨hn, hs, hp⟩
          rename_i hcond
          refine ⟨?_, ?_, ?_⟩
          · rw [List.map_cons, List.nodup_cons]
            refine ⟨fun hin => ?_, hn⟩
            rcases List.mem_map.mp hin with ⟨it2, hit2, hpath⟩
            have := hs it2 hit2
            rw [hpath, toUploadItem_path hti] at this
            exact this (List.mem_cons_self _ _)
          · intro it hit
            rcases List.mem_cons.mp hit with he | he
            · subst he
              rw [toUploadItem_path hti]
              intro hin
              exact hcond.2 (by simpa using hin)
            · intro hin
              exact hs it he (List.mem_cons_of_mem _ hin)
          · intro it hit
            rcases List.mem_cons.mp hit with he | he
            · subst he
              exact ⟨fa, List.mem_cons_self _ _, by simpa using hcond.1, hti⟩
            · rcases hp it he with ⟨fa2, hfa2, hsym, hti2⟩
              exact ⟨fa2, List.mem_cons_of_mem _ hfa2, hsym, hti2⟩
    · rcases ih seen out h with ⟨hn, hs, hp⟩
      refine ⟨hn, hs, fun it hit => ?_⟩
      rcases hp it hit with ⟨fa2, hfa2, hsym, hti2⟩
      exact ⟨fa2, List.mem_cons_of_mem _ hfa2, hsym, hti2⟩

/-- C6: in the deduplicated upload stream, each distinct full path
yields at most one UploadItem (the output paths are pairwise distinct),
and a symlink FileAsset never yields any item: every produced item
originates from a non-symlink asset of the input. -/
theorem c6_prepareItems_dedup_symlink_free (fsSize : String → Option Int)
    (input : List FileAsset) (out : List FileItem)
    (h : prepareItemsForUpload fsSize input = some out) :
    (out.map FileItem.Path).Nodup ∧
    ∀ it ∈ out, ∃ fa ∈ input, fa.IsSymlink = false ∧ fa.ToUploadItem fsSize = some it := by
  rcases prepareLoop_spec fsSize input [] out h with ⟨hn, _, hp⟩
  exact ⟨hn, hp⟩

/-- C6 witness: two assets with the same path (from two trees) and a
symlink asset yield exactly one upload item. -/
theorem c6_prepareItems_dedup_symlink_free_witness :
    prepareItemsForUpload (fun _ => none)
        [⟨⟨"d", "3", "", "", "", ""⟩, "/x/a"⟩, ⟨⟨"e", "4", "", "", "", ""⟩, "/x/a"⟩,
          ⟨⟨"", "", "", "t", "", ""⟩, "/x/b"⟩] =
      some [⟨⟨"d", 3, false, 6⟩, "/x/a"⟩] ∧
    (([⟨⟨"d", 3, false, 6⟩, "/x/a"⟩] : List FileItem).map FileItem.Path).Nodup := by
  have h : prepareItemsForUpload (fun _ => none)
      [⟨⟨"d", "3", "", "", "", ""⟩, "/x/a"⟩, ⟨⟨"e", "4", "", "", "", ""⟩, "/x/a"⟩,
        ⟨⟨"", "", "", "t", "", ""⟩, "/x/b"⟩] =
      some [⟨⟨"d", 3, false, 6⟩, "/x/a"⟩] := by decide
  exact ⟨h, (c6_prepareItems_dedup_symlink_free (fun _ => none) _ _ h).1⟩

theorem consumeResults_all_ok {l : List TreeResult}
    (h : ∀ r ∈ l, r.err = none) :
    ∀ acc, (consumeResults l acc).2 = [none] := by
  induction l with
  | nil => intro acc; rfl
  | cons r rest ih =>
    intro acc
    rw [consumeResults]
    have hr : r.err = none := h r (List.mem_cons_self r rest)
    rw [hr]
    exact ih (fun x hx => h x (List.mem_cons_of_mem _ hx)) _

theorem loopStep_err_invariant (st : LoopState) (p : LoopPick)
    (h1 : st.err = none) (h2 : ∀ e ∈ st.chans.errMsgs, e = none) :
    (loopStep st p).err = none ∧ ∀ e ∈ (loopStep st p).chans.errMsgs, e = none := by
  rcases p with _ | _ | _
  · exact ⟨h1, h2⟩
  · exact ⟨h1, h2⟩
  · constructor
    · rcases hh : st.chans.errMsgs with _ | ⟨e, rest⟩
      · simp [loopStep, hh]
      · simp only [loopStep, hh, List.headD_cons]
        exact h2 e (hh ▸ List.mem_cons_self e rest)
    · intro x hx
      simp only [loopStep] at hx
      exact h2 x (List.mem_of_mem_tail hx)

theorem loopRun_err_none :
    ∀ (picks : List LoopPick) (st : LoopState), st.err = none →
    (∀ e ∈ st.chans.errMsgs, e = none) → (loopRun st picks).err = none := by
  intro picks
  induction picks with
  | nil => intro st h _; exact h
  | cons p ps ih =>
    intro st h hmsgs
    rw [loopRun, if_pos h]
    exact ih _ (loopStep_err_invariant st p h hmsgs).1 (loopStep_err_invariant st p h hmsgs).2

/-- C4: on an all-success run, `Isolate` never terminates.  Every
per-tree result succeeds (the `isolateTree` stub cannot fail), so the
only value the loop can ever receive from the error channel is nil —
the consumer's single "indicate success" nil, then the nil zero value
of the closed channel.  Hence after every finite schedule of select
picks `err` is still nil and the `for err == nil` loop never exits:
`Isolate` never returns the aggregated digest map. -/
theorem c4_isolate_success_never_returns (trees : List Tree)
    (arrival : List TreeResult) (harr : arrival.Perm (resultsOf trees))
    (picks : List LoopPick) :
    (loopRun (initLoopState arrival) picks).err = none := by
  have hall : ∀ r ∈ arrival, r.err = none := by
    intro r hr
    have : r ∈ resultsOf trees := harr.mem_iff.mp hr
    rcases List.mem_map.mp this with ⟨t, _, ht⟩
    rw [← ht]
    rfl
  apply loopRun_err_none
  · rfl
  · intro e he
    have h2 : (consumeResults arrival []).2 = [none] := consumeResults_all_ok hall []
    rw [initLoopState] at he
    simp only at he
    rw [h2] at he
    rcases List.mem_cons.mp he with h | h
    · exact h
    · cases h

/-- C4 witness: the non-exit invariant at a concrete run (one tree,
arrival order the worker order, three loop iterations). -/
theorem c4_isolate_success_never_returns_witness :
    (loopRun (initLoopState (resultsOf [⟨"/w", ⟨"a.isolate", "a.isolated", [], [], [], []⟩⟩]))
      [.errs, .hashes, .errs]).err = none :=
  c4_isolate_success_never_returns [⟨"/w", ⟨"a.isolate", "a.isolated", [], [], [], []⟩⟩]
    (resultsOf [⟨"/w", ⟨"a.isolate", "a.isolated", [], [], [], []⟩⟩])
    (List.Perm.refl _) [.errs, .hashes, .errs]

end IsolateClient
